import Mathlib

/-!
Verification of the sequence-anomaly core of `home-iot-guard`.

The Python source (src/models/preprocess.py, src/models/train_model.py,
src/models/optimize_threshold.py, src/app.py) is shallowly embedded below.
Numeric values are modelled as rationals; `numpy` floating point arithmetic
is read as exact arithmetic.  `np.std` returns the square root of the
population variance, which is irrational in general, so functions that use
it take the standard deviation as an explicit argument constrained by
`stdSpec` (it must be the nonnegative square root of the population
variance).  Python exceptions are modelled by `Option`/`Except`.
-/

namespace IoTGuard

/-! ## Statistics with numpy semantics -/

/-- Embeds `np.mean`: sum divided by length (division by zero yields 0 for `[]`,
where numpy would produce NaN; claims about nonempty data carry a
nonemptiness hypothesis). -/
def mean (xs : List ℚ) : ℚ := xs.sum / xs.length

/-- Population variance, the square of `np.std` (numpy default `ddof=0`). -/
def pvariance (xs : List ℚ) : ℚ :=
  ((xs.map (fun x => (x - mean xs) ^ 2)).sum) / xs.length

/-- States that `σ` is the value of `np.std xs`: the nonnegative square root of the
population variance. -/
def stdSpec (xs : List ℚ) (σ : ℚ) : Prop := 0 ≤ σ ∧ σ ^ 2 = pvariance xs

instance (xs : List ℚ) (σ : ℚ) : Decidable (stdSpec xs σ) := by
  unfold stdSpec; infer_instance

/-- Embeds `np.percentile xs q` with the default linear interpolation:
with `s` the ascending sort of `xs` and `pos = q·(n−1)/100`,
the result is `s[⌊pos⌋] + (pos − ⌊pos⌋)·(s[⌊pos⌋+1] − s[⌊pos⌋])`. -/
def percentile (xs : List ℚ) (q : ℕ) : ℚ :=
  let s := xs.insertionSort (· ≤ ·)
  let k := q * (s.length - 1)
  let lo := k / 100
  let frac : ℚ := (k : ℚ) / 100 - (lo : ℚ)
  let a := s.getD lo 0
  a + frac * (s.getD (lo + 1) a - a)

/-! ## `train_model.evaluate_model`

The Python function unpacks `confusion_matrix(y_true, y_pred).ravel()`
into four values.  `sklearn` builds the matrix over the sorted union of
the values occurring in `y_true` and `y_pred`; when only one class occurs
the matrix is 1×1 and the 4-way unpacking raises `ValueError` (likewise
for arrays of different lengths / empty arrays).  `none` models that
exception.  The unused `errors` argument of the Python function is
dropped; the `threshold` argument is stored in the result unchanged. -/

structure Metrics where
  tp : ℕ
  fp : ℕ
  tn : ℕ
  fneg : ℕ
  accuracy : ℚ
  precision : ℚ
  recallV : ℚ
  f1_score : ℚ
  detection_rate : ℚ
  false_positive_rate : ℚ
  threshold : ℚ
deriving DecidableEq

def countTP (yt yp : List Bool) : ℕ :=
  ((yt.zip yp).filter (fun c => c.1 && c.2)).length

def countFP (yt yp : List Bool) : ℕ :=
  ((yt.zip yp).filter (fun c => !c.1 && c.2)).length

def countTN (yt yp : List Bool) : ℕ :=
  ((yt.zip yp).filter (fun c => !c.1 && !c.2)).length

def countFN (yt yp : List Bool) : ℕ :=
  ((yt.zip yp).filter (fun c => c.1 && !c.2)).length

/-- The metrics dictionary built by `evaluate_model` once the confusion
counts are available (the successful branch). -/
def metricsOf (yt yp : List Bool) (t : ℚ) : Metrics :=
  let tp := countTP yt yp
  let fp := countFP yt yp
  let tn := countTN yt yp
  let fneg := countFN yt yp
  let precision : ℚ := if 0 < tp + fp then (tp : ℚ) / ((tp : ℚ) + fp) else 0
  let recallV : ℚ := if 0 < tp + fneg then (tp : ℚ) / ((tp : ℚ) + fneg) else 0
  { tp := tp, fp := fp, tn := tn, fneg := fneg
    accuracy := ((tp : ℚ) + tn) / ((tp : ℚ) + tn + fp + fneg)
    precision := precision
    recallV := recallV
    f1_score := if 0 < precision + recallV then
        2 * (precision * recallV) / (precision + recallV) else 0
    detection_rate := recallV
    false_positive_rate := if 0 < fp + tn then (fp : ℚ) / ((fp : ℚ) + tn) else 0
    threshold := t }

/-- Embeds `evaluate_model(y_true, y_pred, errors, threshold)`.  Returns `none`
exactly when `confusion_matrix(y_true, y_pred).ravel()` does not produce
four values: mismatched lengths, or fewer than two distinct classes in
the union of the two label vectors. -/
def evaluate_model (yt yp : List Bool) (t : ℚ) : Option Metrics :=
  if yt.length = yp.length ∧ (true ∈ yt ∨ true ∈ yp) ∧ (false ∈ yt ∨ false ∈ yp)
  then some (metricsOf yt yp t)
  else none

/-- Embeds `(errors > threshold).astype(int)`: elementwise classification used by
`detect_anomalies` in train_model.py and app.py and by
`find_optimal_threshold`. -/
def classify (errors : List ℚ) (threshold : ℚ) : List Bool :=
  errors.map (fun e => decide (threshold < e))

/-- Anomaly count for a fixed error vector at a threshold
(`np.sum(errors > threshold)` / `len(anomaly_indices)` in app.py). -/
def anomalyCount (errors : List ℚ) (threshold : ℚ) : ℕ :=
  (classify errors threshold).count true

/-! ## `optimize_threshold.find_optimal_threshold`

The function receives the model and raw windows and first computes
`train_errors`/`test_errors`; the search itself depends only on those error
arrays and on `y_test`, so the embedding takes the error arrays directly.
`σ` stands for `np.std(train_errors)` (see `stdSpec`). -/

/-- An evaluated candidate: strategy name, threshold value and the metrics
`evaluate_model` produced for it. -/
structure Cand where
  name : String
  threshold : ℚ
  m : Metrics
deriving DecidableEq

/-- The `strategies` dictionary of Phase 1, in insertion (= iteration)
order. -/
def strategies (tr : List ℚ) (σ : ℚ) : List (String × ℚ) :=
  [("mean + 3*std", mean tr + 3 * σ),
   ("mean + 2*std", mean tr + 2 * σ),
   ("mean + 1*std", mean tr + 1 * σ),
   ("mean", mean tr),
   ("95th percentile", percentile tr 95),
   ("90th percentile", percentile tr 90),
   ("85th percentile", percentile tr 85),
   ("80th percentile", percentile tr 80),
   ("75th percentile", percentile tr 75)]

/-- The Phase-2 fallback candidates: `np.percentile(train_errors, p)` for
`p in range(50, 100)`. -/
def fallbackCandidates (tr : List ℚ) : List (String × ℚ) :=
  (List.range' 50 50).map (fun p => (toString p ++ "th percentile", percentile tr p))

/-- One loop body step: classify the held-out split at the candidate
threshold and run `evaluate_model` (whose exception propagates). -/
def evalCand (te : List ℚ) (y : List Bool) (c : String × ℚ) : Option Cand :=
  (evaluate_model y (classify te c.2) c.2).map (fun m => ⟨c.1, c.2, m⟩)

/-- Evaluate every candidate in order; a raised exception at any candidate
aborts the whole search (`none`). -/
def evalAll (te : List ℚ) (y : List Bool) : List (String × ℚ) → Option (List Cand)
  | [] => some []
  | c :: cs =>
    match evalCand te y c, evalAll te y cs with
    | some e, some es => some (e :: es)
    | _, _ => none

/-- The Phase-1 qualification test:
`detection_rate >= 0.85 and false_positive_rate <= target_fpr`. -/
def qualifiesB (target : ℚ) (m : Metrics) : Bool :=
  decide ((85 : ℚ)/100 ≤ m.detection_rate) && decide (m.false_positive_rate ≤ target)

/-- Embeds `best_metrics is None or metrics['detection_rate'] > best_metrics[...]`:
keep the new candidate when nothing is kept yet or it is strictly better. -/
def maxStep (sc : α → ℚ) (best : Option α) (a : α) : Option α :=
  if (match best with | none => true | some x => decide (sc x < sc a)) then some a else best

/-- Phase-1 accumulation: keep the candidate when it qualifies and either
no candidate was kept yet or its detection rate is strictly larger. -/
def phase1Fold (target : ℚ) (cs : List Cand) : Option Cand :=
  cs.foldl (fun best c =>
    if qualifiesB target c.m then maxStep (fun c => c.m.detection_rate) best c
    else best) none

/-- Phase-2 score: `detection_rate - fpr * (2 if fpr > target_fpr else 1)`. -/
def score (target : ℚ) (m : Metrics) : ℚ :=
  m.detection_rate - m.false_positive_rate * (if target < m.false_positive_rate then 2 else 1)

/-- Phase-2 accumulation with `best_score` initialised to `-1` and updated
only on a strictly larger score. -/
def phase2Fold (target : ℚ) (cs : List Cand) : ℚ × Option Cand :=
  cs.foldl (fun st c =>
    if st.1 < score target c.m then (score target c.m, some c) else st) (-1, none)

/-- Embeds `find_optimal_threshold` on precomputed error arrays.  Returns `none`
when the Python function raises: either `evaluate_model` raised on some
candidate, or Phase 2 selected nothing (`best_threshold` stays `None` and
`f"{best_threshold:.6f}"` raises `TypeError`). -/
def find_optimal_threshold (tr te : List ℚ) (σ : ℚ) (y : List Bool) (target : ℚ) :
    Option Cand :=
  match evalAll te y (strategies tr σ) with
  | none => none
  | some evals =>
    match phase1Fold target evals with
    | some b => some b
    | none =>
      match evalAll te y (fallbackCandidates tr) with
      | none => none
      | some evals2 =>
        match (phase2Fold target evals2).2 with
        | some b => some b
        | none => none

/-- Modelled from the spec (§4.4 Phase 1): among the candidates satisfying
`detection_rate ≥ 0.85 AND fpr ≤ target_fpr`, the first-evaluated one with
the strictly highest detection rate, ties keeping evaluation order. -/
def specPhase1Select (target : ℚ) (cs : List Cand) : Option Cand :=
  let qs := cs.filter (fun c => qualifiesB target c.m)
  qs.find? (fun c => qs.all (fun b => decide (b.m.detection_rate ≤ c.m.detection_rate)))

/-- Modelled from the spec (§4.4 Phase 2): keep the maximum
`score = detection_rate − penalty`, first-seen wins ties. -/
def specPhase2Select (target : ℚ) (cs : List Cand) : Option Cand :=
  cs.find? (fun c => cs.all (fun b => decide (score target b.m ≤ score target c.m)))

/-- Plain `Option.filter` written out (used to state what the Phase-2 fold with
its `-1` floor actually returns). -/
def keepIf (p : α → Bool) : Option α → Option α
  | none => none
  | some a => if p a then some a else none

/-- The candidates actually evaluated, in order, when no exception occurs:
each candidate paired with its `evaluate_model` metrics. -/
def evalsOf (te : List ℚ) (y : List Bool) (cands : List (String × ℚ)) : List Cand :=
  cands.map (fun c => ⟨c.1, c.2, metricsOf y (classify te c.2) c.2⟩)

/-! ## `preprocess.create_sequences` (the windower)

Row-major data: a list of rows, each row a list of feature values. -/

/-- Embeds `create_sequences(data, seq_length)`: zero windows when
`len(data) <= seq_length`, otherwise `data[i:i+L]` for
`i in range(len(data) - L)`. -/
def create_sequences (data : List (List ℚ)) (L : ℕ) : List (List (List ℚ)) :=
  if data.length ≤ L then []
  else (List.range (data.length - L)).map (fun i => (data.drop i).take L)

/-! ## `preprocess.preprocess_pipeline`: labels -/

/-- Label encoding in `preprocess_pipeline`:
`y.map({'benign': 0, 'malicious': 1})`.  `pandas.Series.map` sends every
key absent from the dictionary to `NaN` (modelled `none`) without raising;
the pipeline then continues with that value. -/
def encodeLabel (s : String) : Option ℚ :=
  if s = "benign" then some 0 else if s = "malicious" then some 1 else none

/-- The whole label column after encoding; no error channel exists in the
source for this step. -/
def encodeLabels (y : List String) : List (Option ℚ) := y.map encodeLabel

/-- Label alignment when sequences are created and `len(X) > 0`:
`y = y[seq_length:]`. -/
def alignSeqLabels (y : List α) (L : ℕ) : List α := y.drop L

/-- The sequence step of `preprocess_pipeline` (`create_seq=True`):
windows together with the label vector, which is sliced only when at
least one window exists. -/
def pipelineSeq (X : List (List ℚ)) (y : List α) (L : ℕ) :
    List (List (List ℚ)) × List α :=
  let Xs := create_sequences X L
  (Xs, if Xs.length ≠ 0 then alignSeqLabels y L else y)

/-! ## Scaling (`StandardScaler`) and tabular data

A dataframe is modelled column-major: a list of named columns.
`StandardScaler` transforms each column by `(x − mean) / scale` where
`scale` is the column's population standard deviation, except that a zero
standard deviation is replaced by `1` (sklearn `_handle_zeros_in_scale`).
As with `np.std`, the standard deviation is supplied as an explicit
argument (`std : String → ℚ` per column, constrained by `stdSpec`). -/

abbrev Frame := List (String × List ℚ)

def colNames (df : Frame) : List String := df.map (fun c => c.1)

/-- The values of a named column (`[]` when absent). -/
def colOf (df : Frame) (name : String) : List ℚ :=
  ((df.find? (fun c => c.1 = name)).map (fun c => c.2)).getD []

/-- sklearn replaces a zero standard deviation by scale 1. -/
def scaleOf (σ : ℚ) : ℚ := if σ = 0 then 1 else σ

/-- Fit-and-transform of one column: z-score with the column's own mean
and standard deviation `σ`. -/
def standardizeCol (xs : List ℚ) (σ : ℚ) : List ℚ :=
  xs.map (fun x => (x - mean xs) / scaleOf σ)

/-- The required numeric feature set (`expected_features` in app.py,
`numeric_cols` passed by every training/optimization caller). -/
def expectedFeatures : List String :=
  ["orig_pkts", "resp_pkts", "orig_bytes", "resp_bytes"]

/-- Embeds `clean_data`'s column selection: `numeric_cols_present = [col for col
in numeric_cols if col in df_clean.columns]`.  These are the columns the
freshly fitted scaler normalizes; absent columns are silently skipped. -/
def cleanDataScalerCols (dfCols : List String) (numericCols : List String) : List String :=
  numericCols.filter (fun c => dfCols.contains c)

/-- The normalization step of `clean_data`: fit a `StandardScaler` on the
present numeric columns and replace them by their transform.  There is no
raise in this function for absent columns — it proceeds with whatever is
present. -/
def cleanDataNumeric (df : Frame) (numericCols : List String) (std : String → ℚ) : Frame :=
  let present := cleanDataScalerCols (colNames df) numericCols
  df.map (fun c => if present.contains c.1 then (c.1, standardizeCol c.2 (std c.1)) else c)

/-! ## `app.preprocess_for_detection` -/

/-- The required-feature check of `preprocess_for_detection`:
`[f for f in expected_features if f not in df.columns]`. -/
def missingFeatures (dfCols : List String) : List String :=
  expectedFeatures.filter (fun f => !(dfCols.contains f))

/-- The inference normalization: `df = df[expected_features]` followed by
`StandardScaler().fit_transform(df)` — a fresh scaler fitted on the
uploaded request itself.  `std f` is `np.std` of column `f` of this very
request. -/
def detectionNormalize (df : Frame) (std : String → ℚ) : Frame :=
  expectedFeatures.map (fun f => (f, standardizeCol (colOf df f) (std f)))

/-- Modelled from the spec (§3 invariants, §6 scaler parameters): normalize
a raw inference request by applying persisted per-feature `(mean, std)`
parameters unmodified. -/
def applyScalerParams (params : String → ℚ × ℚ) (df : Frame) : Frame :=
  expectedFeatures.map (fun f =>
    (f, (colOf df f).map (fun x => (x - (params f).1) / scaleOf (params f).2)))

/-- Row-major view of the four selected normalized columns, as
`df_normalized.iloc[i]` produces them; `n` is the row count of the
(rectangular) frame. -/
def frameRows (df : Frame) (n : ℕ) : List (List ℚ) :=
  (List.range n).map (fun i => expectedFeatures.map (fun f => (colOf df f).getD i 0))

/-- Number of rows of the uploaded table (length of the first required
column; the claims quantify over rectangular frames). -/
def frameRowCount (df : Frame) : ℕ := (colOf df "orig_pkts").length

/-- Embeds `preprocess_for_detection` after the `ts`/`label` columns are dropped:
validate the required features (raising `ValueError` naming the missing
ones), normalize with a fresh scaler, and build length-10 sequences,
raising `ValueError` when the file has too few rows.  (The Python message
formats the missing-column list with Python `repr`; the embedding uses
Lean's list printing.) -/
def preprocess_for_detection (df : Frame) (std : String → ℚ) :
    Except String (List (List (List ℚ))) :=
  if missingFeatures (colNames df) ≠ [] then
    Except.error ("Missing required features: " ++ toString (missingFeatures (colNames df)))
  else
    let norm := detectionNormalize df std
    let rows := frameRows norm (frameRowCount df)
    if rows.length ≤ 10 then
      Except.error "File must have more than 10 rows for sequence analysis"
    else
      Except.ok ((List.range (rows.length - 10)).map (fun i => (rows.drop i).take 10))

/-! ## `app.detect_anomalies` -/

/-- Mean squared difference over all (timestep, feature) positions:
`np.mean(np.square(w - r))` for one window. -/
def mseError (w r : List (List ℚ)) : ℚ :=
  (((w.zip r).map (fun p => ((p.1.zip p.2).map (fun q => (q.1 - q.2) ^ 2)).sum)).sum)
    / ((w.map (fun row => row.length)).sum)

/-- One entry of the `details` list (the optional `sample_data` echo of the
raw row is omitted). -/
structure Detail where
  sequence_id : ℕ
  rows : String
  error : ℚ
  threshold : ℚ
  severity : String
deriving DecidableEq

/-- The result dictionary of `app.detect_anomalies`.  `error = some msg`
models the dictionary that carries an `'error'` key; the success
dictionary has no such key (the model/threshold and percentage fields are
not needed by any claim and are omitted). -/
structure DetectionOutcome where
  error : Option String
  anomalies_count : ℕ
  details : List Detail
  total_samples : ℕ
deriving DecidableEq

def mkDetail (errors : List ℚ) (threshold : ℚ) (idx : ℕ) : Detail :=
  { sequence_id := idx
    rows := toString idx ++ "-" ++ toString (idx + 10)
    error := errors.getD idx 0
    threshold := threshold
    severity := if threshold * (3/2) < errors.getD idx 0 then "High" else "Medium" }

/-- Embeds `app.detect_anomalies(file_path)`.  The reconstruction model is an
opaque function `model` (deterministic, per §4.3); `modelLoaded = false`
is the `MODEL is None` branch.  Every exception raised inside the `try`
block (preprocessing errors included) is caught and converted into the
error dictionary with zero counts; email sending failures are swallowed
inside `send_email_alert` and do not affect the result. -/
def app_detect_anomalies (modelLoaded : Bool)
    (model : List (List ℚ) → List (List ℚ)) (threshold : ℚ)
    (df : Frame) (std : String → ℚ) : DetectionOutcome :=
  if !modelLoaded then
    { error := some "Model not loaded. Please train the model first."
      anomalies_count := 0, details := [], total_samples := 0 }
  else
    match preprocess_for_detection df std with
    | Except.error e =>
      { error := some e, anomalies_count := 0, details := [], total_samples := 0 }
    | Except.ok seqs =>
      let errors := seqs.map (fun w => mseError w (model w))
      let anomalyIdxs := (List.range errors.length).filter
        (fun i => decide (threshold < errors.getD i 0))
      { error := none
        anomalies_count := anomalyIdxs.length
        details := (anomalyIdxs.take 100).map (mkDetail errors threshold)
        total_samples := seqs.length }

/-! ## Generic keep-the-strict-maximum fold

Both phases of the search keep a running best that is replaced only by a
strictly better candidate; Phase 2 additionally has a `best_score = -1`
floor.  The lemmas below characterise such folds as "the first element
attaining the maximum" (`List.find?` of a maximality predicate). -/

/-- Score of the running best: the floor `b` while nothing is kept. -/
def floorOf (sc : α → ℚ) (b : ℚ) : Option α → ℚ
  | none => b
  | some x => sc x

/-- Keep `a` exactly when it strictly beats the running best (or the
floor). -/
def floorStep (sc : α → ℚ) (b : ℚ) (o : Option α) (a : α) : Option α :=
  if floorOf sc b o < sc a then some a else o

def obOr : Option α → Option α → Option α
  | some a, _ => some a
  | none, o => o

theorem find?_congr {p q : α → Bool} :
    ∀ (l : List α), (∀ a ∈ l, p a = q a) → l.find? p = l.find? q
  | [], _ => rfl
  | a :: t, h => by
    have ha := h a (List.mem_cons_self a t)
    cases hq : q a with
    | true =>
      rw [List.find?_cons_of_pos _ (ha ▸ hq), List.find?_cons_of_pos _ hq]
    | false =>
      rw [List.find?_cons_of_neg _ (by simp [ha, hq]),
        List.find?_cons_of_neg _ (by simp [hq])]
      exact find?_congr t (fun x hx => h x (List.mem_cons_of_mem a hx))

theorem exists_le_max (sc : α → ℚ) :
    ∀ (l : List α), l ≠ [] → ∃ x ∈ l, ∀ c ∈ l, sc c ≤ sc x
  | [], h => absurd rfl h
  | a :: t, _ => by
    rcases List.eq_nil_or_concat t with rfl | _
    · exact ⟨a, List.mem_cons_self a [], by simp⟩
    · rcases t with _ | ⟨b, t'⟩
      · exact ⟨a, List.mem_cons_self a [], by simp⟩
      · obtain ⟨x, hx, hmax⟩ := exists_le_max sc (b :: t') (by simp)
        by_cases hax : sc x ≤ sc a
        · refine ⟨a, List.mem_cons_self _ _, ?_⟩
          intro c hc
          rcases List.mem_cons.mp hc with rfl | hc
          · exact le_refl _
          · exact le_trans (hmax c hc) hax
        · refine ⟨x, List.mem_cons_of_mem a hx, ?_⟩
          intro c hc
          rcases List.mem_cons.mp hc with rfl | hc
          · exact le_of_not_le hax
          · exact hmax c hc

/-- Auxiliary: Bool equality from an iff of the coercions. -/
theorem bool_eq_of_iff {a b : Bool} (h : a = true ↔ b = true) : a = b := by
  cases a <;> cases b <;> simp_all

/-- A keep-the-strictly-better fold from accumulator `o` returns the first
element of `l` attaining the maximum score among those beating the running
best's score, and `o` itself when no element does. -/
theorem foldl_floorStep_eq (sc : α → ℚ) (b : ℚ) :
    ∀ (l : List α) (o : Option α),
      l.foldl (floorStep sc b) o =
        obOr (l.find? (fun x => (l.all fun c => decide (sc c ≤ sc x))
            && decide (floorOf sc b o < sc x))) o
  | [], o => by simp [obOr]
  | a :: t, o => by
    by_cases hstep : floorOf sc b o < sc a
    · have hfold : (a :: t).foldl (floorStep sc b) o = t.foldl (floorStep sc b) (some a) := by
        simp [floorStep, hstep]
      rw [hfold, foldl_floorStep_eq sc b t (some a)]
      by_cases hmax : ∀ c ∈ t, sc c ≤ sc a
      · have h1 : (a :: t).find? (fun x => ((a :: t).all fun c => decide (sc c ≤ sc x))
            && decide (floorOf sc b o < sc x)) = some a := by
          apply List.find?_cons_of_pos
          simp only [Bool.and_eq_true, List.all_eq_true, decide_eq_true_eq]
          refine ⟨?_, hstep⟩
          intro c hc
          rcases List.mem_cons.mp hc with rfl | hc
          · exact le_refl _
          · exact hmax c hc
        have h2 : t.find? (fun x => (t.all fun c => decide (sc c ≤ sc x))
            && decide (floorOf sc b (some a) < sc x)) = none := by
          rw [List.find?_eq_none]
          intro x hx
          simp only [Bool.and_eq_true, List.all_eq_true, decide_eq_true_eq, floorOf, not_and]
          intro _
          exact not_lt.mpr (hmax x hx)
        rw [h1, h2]
        rfl
      · push_neg at hmax
        obtain ⟨y, hy, hya⟩ := hmax
        have hne : t ≠ [] := by
          intro h
          rw [h] at hy
          exact (List.not_mem_nil y) hy
        have hconga : ¬ (((a :: t).all fun c => decide (sc c ≤ sc a))
            && decide (floorOf sc b o < sc a)) = true := by
          simp only [Bool.and_eq_true, List.all_eq_true, decide_eq_true_eq, not_and]
          intro hall _
          exact absurd (hall y (List.mem_cons_of_mem a hy)) (not_le.mpr hya)
        have h1 : (a :: t).find? (fun x => ((a :: t).all fun c => decide (sc c ≤ sc x))
            && decide (floorOf sc b o < sc x))
            = t.find? (fun x => ((a :: t).all fun c => decide (sc c ≤ sc x))
            && decide (floorOf sc b o < sc x)) :=
          List.find?_cons_of_neg _ hconga
        have hcong : t.find? (fun x => ((a :: t).all fun c => decide (sc c ≤ sc x))
            && decide (floorOf sc b o < sc x))
            = t.find? (fun x => (t.all fun c => decide (sc c ≤ sc x))
            && decide (floorOf sc b (some a) < sc x)) := by
          apply find?_congr
          intro x hx
          apply bool_eq_of_iff
          simp only [Bool.and_eq_true, List.all_eq_true, decide_eq_true_eq, floorOf]
          constructor
          · rintro ⟨hall, -⟩
            have hax : sc a < sc x := lt_of_lt_of_le hya (hall y (List.mem_cons_of_mem a hy))
            exact ⟨fun c hc => hall c (List.mem_cons_of_mem a hc), hax⟩
          · rintro ⟨hall, hax⟩
            refine ⟨?_, lt_trans hstep hax⟩
            intro c hc
            rcases List.mem_cons.mp hc with rfl | hc
            · exact le_of_lt hax
            · exact hall c hc
        have hsome : t.find? (fun x => (t.all fun c => decide (sc c ≤ sc x))
            && decide (floorOf sc b (some a) < sc x)) ≠ none := by
          obtain ⟨x, hx, hxm⟩ := exists_le_max sc t hne
          intro hnone
          rw [List.find?_eq_none] at hnone
          apply hnone x hx
          simp only [Bool.and_eq_true, List.all_eq_true, decide_eq_true_eq, floorOf]
          exact ⟨fun c hc => hxm c hc, lt_of_lt_of_le hya (hxm y hy)⟩
        rw [h1, hcong]
        rcases hval : t.find? (fun x => (t.all fun c => decide (sc c ≤ sc x))
            && decide (floorOf sc b (some a) < sc x)) with _ | v
        · exact absurd hval hsome
        · rfl
    · have hfold : (a :: t).foldl (floorStep sc b) o = t.foldl (floorStep sc b) o := by
        simp [floorStep, hstep]
      rw [hfold, foldl_floorStep_eq sc b t o]
      have hconga : ¬ (((a :: t).all fun c => decide (sc c ≤ sc a))
          && decide (floorOf sc b o < sc a)) = true := by
        simp only [Bool.and_eq_true, List.all_eq_true, decide_eq_true_eq, not_and]
        intro _ hlt
        exact hstep hlt
      have h1 : (a :: t).find? (fun x => ((a :: t).all fun c => decide (sc c ≤ sc x))
          && decide (floorOf sc b o < sc x))
          = t.find? (fun x => ((a :: t).all fun c => decide (sc c ≤ sc x))
          && decide (floorOf sc b o < sc x)) :=
        List.find?_cons_of_neg _ hconga
      have hcong : t.find? (fun x => ((a :: t).all fun c => decide (sc c ≤ sc x))
          && decide (floorOf sc b o < sc x))
          = t.find? (fun x => (t.all fun c => decide (sc c ≤ sc x))
          && decide (floorOf sc b o < sc x)) := by
        apply find?_congr
        intro x hx
        apply bool_eq_of_iff
        simp only [Bool.and_eq_true, List.all_eq_true, decide_eq_true_eq]
        constructor
        · rintro ⟨hall, hlt⟩
          exact ⟨fun c hc => hall c (List.mem_cons_of_mem a hc), hlt⟩
        · rintro ⟨hall, hlt⟩
          refine ⟨?_, hlt⟩
          intro c hc
          rcases List.mem_cons.mp hc with rfl | hc
          · exact le_trans (not_lt.mp hstep) (le_of_lt hlt)
          · exact hall c hc
      rw [h1, hcong]

/-- Tracking `(best_score, best)` as a pair (with the running score kept in
sync) computes the same best as the `Option`-only fold. -/
theorem foldl_pair_floorStep (sc : α → ℚ) (b : ℚ) :
    ∀ (l : List α) (o : Option α),
      l.foldl (fun st a => if st.1 < sc a then (sc a, some a) else st) (floorOf sc b o, o)
        = (floorOf sc b (l.foldl (floorStep sc b) o), l.foldl (floorStep sc b) o)
  | [], o => rfl
  | a :: t, o => by
    have hstep : (if (floorOf sc b o, o).1 < sc a then ((sc a : ℚ), some a)
        else (floorOf sc b o, o)) = (floorOf sc b (floorStep sc b o a), floorStep sc b o a) := by
      by_cases h : floorOf sc b o < sc a
      · rw [if_pos h]
        unfold floorStep
        rw [if_pos h]
        rfl
      · rw [if_neg h]
        unfold floorStep
        rw [if_neg h]
    simp only [List.foldl_cons, hstep]
    exact foldl_pair_floorStep sc b t (floorStep sc b o a)

/-- Adding a floor condition to the first-maximum search is the same as
filtering the found maximum through the floor. -/
theorem find?_max_floor (sc : α → ℚ) (b : ℚ) :
    ∀ (l : List α),
      l.find? (fun x => (l.all fun c => decide (sc c ≤ sc x)) && decide (b < sc x)) =
        keepIf (fun x => decide (b < sc x))
          (l.find? (fun x => l.all fun c => decide (sc c ≤ sc x)))
  | [] => rfl
  | a :: t => by
    by_cases hmax : ∀ c ∈ t, sc c ≤ sc a
    · have hmaxcons : ∀ c ∈ a :: t, sc c ≤ sc a := by
        intro c hc
        rcases List.mem_cons.mp hc with rfl | hc
        · exact le_refl _
        · exact hmax c hc
      have h1 : (a :: t).find? (fun x => (a :: t).all fun c => decide (sc c ≤ sc x))
          = some a := by
        apply List.find?_cons_of_pos
        simp only [List.all_eq_true, decide_eq_true_eq]
        exact hmaxcons
      rw [h1]
      by_cases hb : b < sc a
      · have h2 : (a :: t).find? (fun x => ((a :: t).all fun c => decide (sc c ≤ sc x))
            && decide (b < sc x)) = some a := by
          apply List.find?_cons_of_pos
          simp only [Bool.and_eq_true, List.all_eq_true, decide_eq_true_eq]
          exact ⟨hmaxcons, hb⟩
        rw [h2]
        simp [keepIf, hb]
      · have h2 : (a :: t).find? (fun x => ((a :: t).all fun c => decide (sc c ≤ sc x))
            && decide (b < sc x)) = none := by
          rw [List.find?_eq_none]
          intro x hx
          simp only [Bool.and_eq_true, List.all_eq_true, decide_eq_true_eq, not_and]
          intro _ hbx
          exact hb (lt_of_lt_of_le hbx (hmaxcons x hx))
        rw [h2]
        simp [keepIf, hb]
    · push_neg at hmax
      obtain ⟨y, hy, hya⟩ := hmax
      have hnega : ¬ ((a :: t).all fun c => decide (sc c ≤ sc a)) = true := by
        simp only [List.all_eq_true, decide_eq_true_eq, not_forall]
        exact ⟨y, List.mem_cons_of_mem a hy, not_le.mpr hya⟩
      have hnega2 : ¬ (((a :: t).all fun c => decide (sc c ≤ sc a))
          && decide (b < sc a)) = true := by
        simp only [Bool.and_eq_true, not_and]
        intro h _
        exact hnega h
      have e1 : (a :: t).find? (fun x => ((a :: t).all fun c => decide (sc c ≤ sc x))
          && decide (b < sc x))
          = t.find? (fun x => ((a :: t).all fun c => decide (sc c ≤ sc x))
          && decide (b < sc x)) :=
        List.find?_cons_of_neg _ hnega2
      have e2 : (a :: t).find? (fun x => (a :: t).all fun c => decide (sc c ≤ sc x))
          = t.find? (fun x => (a :: t).all fun c => decide (sc c ≤ sc x)) :=
        List.find?_cons_of_neg _ hnega
      rw [e1, e2]
      have hc1 : t.find? (fun x => ((a :: t).all fun c => decide (sc c ≤ sc x))
          && decide (b < sc x))
          = t.find? (fun x => (t.all fun c => decide (sc c ≤ sc x)) && decide (b < sc x)) := by
        apply find?_congr
        intro x hx
        apply bool_eq_of_iff
        simp only [Bool.and_eq_true, List.all_eq_true, decide_eq_true_eq]
        constructor
        · rintro ⟨hall, hbx⟩
          exact ⟨fun c hc => hall c (List.mem_cons_of_mem a hc), hbx⟩
        · rintro ⟨hall, hbx⟩
          refine ⟨?_, hbx⟩
          intro c hc
          rcases List.mem_cons.mp hc with rfl | hc
          · exact le_of_lt (lt_of_lt_of_le hya (hall y hy))
          · exact hall c hc
      have hc2 : t.find? (fun x => (a :: t).all fun c => decide (sc c ≤ sc x))
          = t.find? (fun x => t.all fun c => decide (sc c ≤ sc x)) := by
        apply find?_congr
        intro x hx
        apply bool_eq_of_iff
        simp only [List.all_eq_true, decide_eq_true_eq]
        constructor
        · intro hall
          exact fun c hc => hall c (List.mem_cons_of_mem a hc)
        · intro hall
          intro c hc
          rcases List.mem_cons.mp hc with rfl | hc
          · exact le_of_lt (lt_of_lt_of_le hya (hall y hy))
          · exact hall c hc
      rw [hc1, hc2, find?_max_floor sc b t]

/-- Folding with an update guard is folding over the filtered list. -/
theorem foldl_guard_filter {β : Type} (p : α → Bool) (f : β → α → β) :
    ∀ (l : List α) (init : β),
      l.foldl (fun b a => if p a then f b a else b) init = (l.filter p).foldl f init
  | [], _ => rfl
  | a :: t, init => by
    by_cases h : p a = true
    · rw [List.filter_cons_of_pos h]
      simp only [List.foldl_cons, h, if_true]
      exact foldl_guard_filter p f t (f init a)
    · rw [List.filter_cons_of_neg (by simp [h])]
      simp only [List.foldl_cons, h, if_false]
      exact foldl_guard_filter p f t init

/-- Phase 1's keep-the-strict-maximum step (which keeps the first candidate
unconditionally) agrees with the floored step whenever every score clears
the floor. -/
theorem foldl_maxStep_eq_floor (sc : α → ℚ) (b : ℚ) :
    ∀ (l : List α) (o : Option α), (∀ a ∈ l, b < sc a) →
      l.foldl (maxStep sc) o = l.foldl (floorStep sc b) o
  | [], _, _ => rfl
  | a :: t, o, h => by
    have hstep : maxStep sc o a = floorStep sc b o a := by
      cases o with
      | none => simp [maxStep, floorStep, floorOf, h a (List.mem_cons_self a t)]
      | some x =>
        by_cases hxa : sc x < sc a
        · simp [maxStep, floorStep, floorOf, hxa]
        · simp [maxStep, floorStep, floorOf, hxa]
    simp only [List.foldl_cons, hstep]
    exact foldl_maxStep_eq_floor sc b t (floorStep sc b o a)
      (fun c hc => h c (List.mem_cons_of_mem a hc))

theorem obOr_none (o : Option α) : obOr o none = o := by
  cases o <;> rfl

/-- Detection rate is a quotient of natural counts (or zero): never
negative. -/
theorem metricsOf_detection_nonneg (yt yp : List Bool) (t : ℚ) :
    0 ≤ (metricsOf yt yp t).detection_rate := by
  show 0 ≤ (if 0 < countTP yt yp + countFN yt yp
    then (countTP yt yp : ℚ) / ((countTP yt yp : ℚ) + countFN yt yp) else 0)
  split
  · apply div_nonneg
    · positivity
    · positivity
  · exact le_refl 0

/-- Phase 1's guarded strict-max fold is the spec's selection rule: the
first-evaluated qualifying candidate with the maximal detection rate. -/
theorem phase1Fold_eq_spec (target : ℚ) (cs : List Cand)
    (h : ∀ c ∈ cs, 0 ≤ c.m.detection_rate) :
    phase1Fold target cs = specPhase1Select target cs := by
  have hq : ∀ c ∈ cs.filter (fun c => qualifiesB target c.m),
      (-1 : ℚ) < (fun c : Cand => c.m.detection_rate) c := by
    intro c hc
    have h0 := h c (List.mem_of_mem_filter hc)
    simp only
    linarith
  calc phase1Fold target cs
      = (cs.filter fun c => qualifiesB target c.m).foldl
          (maxStep (fun c => c.m.detection_rate)) none :=
        foldl_guard_filter _ _ cs none
    _ = (cs.filter fun c => qualifiesB target c.m).foldl
          (floorStep (fun c => c.m.detection_rate) (-1)) none :=
        foldl_maxStep_eq_floor _ _ _ none hq
    _ = obOr ((cs.filter fun c => qualifiesB target c.m).find?
          (fun x => ((cs.filter fun c => qualifiesB target c.m).all
              fun c => decide (c.m.detection_rate ≤ x.m.detection_rate))
            && decide ((-1 : ℚ) < x.m.detection_rate))) none :=
        foldl_floorStep_eq _ _ _ none
    _ = (cs.filter fun c => qualifiesB target c.m).find?
          (fun x => ((cs.filter fun c => qualifiesB target c.m).all
              fun c => decide (c.m.detection_rate ≤ x.m.detection_rate))
            && decide ((-1 : ℚ) < x.m.detection_rate)) :=
        obOr_none _
    _ = (cs.filter fun c => qualifiesB target c.m).find?
          (fun x => (cs.filter fun c => qualifiesB target c.m).all
            fun c => decide (c.m.detection_rate ≤ x.m.detection_rate)) := by
        apply find?_congr
        intro x hx
        simp [hq x hx]
    _ = specPhase1Select target cs := rfl

/-- Phase 2's fold, with its `best_score = -1` floor, is the spec's
maximum-score selection filtered through "score strictly above −1". -/
theorem phase2Fold_eq_spec (target : ℚ) (cs : List Cand) :
    (phase2Fold target cs).2 =
      keepIf (fun c => decide ((-1 : ℚ) < score target c.m)) (specPhase2Select target cs) := by
  have h1 : phase2Fold target cs
      = (floorOf (fun c => score target c.m) (-1)
          (cs.foldl (floorStep (fun c => score target c.m) (-1)) none),
         cs.foldl (floorStep (fun c => score target c.m) (-1)) none) :=
    foldl_pair_floorStep (fun c : Cand => score target c.m) (-1) cs none
  calc (phase2Fold target cs).2
      = cs.foldl (floorStep (fun c => score target c.m) (-1)) none := by rw [h1]
    _ = obOr (cs.find? (fun x => (cs.all fun c => decide (score target c.m ≤ score target x.m))
          && decide ((-1 : ℚ) < score target x.m))) none :=
        foldl_floorStep_eq _ _ cs none
    _ = cs.find? (fun x => (cs.all fun c => decide (score target c.m ≤ score target x.m))
          && decide ((-1 : ℚ) < score target x.m)) :=
        obOr_none _
    _ = keepIf (fun x => decide ((-1 : ℚ) < score target x.m))
          (cs.find? (fun x => cs.all fun c => decide (score target c.m ≤ score target x.m))) :=
        find?_max_floor _ _ cs
    _ = keepIf (fun c => decide ((-1 : ℚ) < score target c.m)) (specPhase2Select target cs) :=
        rfl

/-- When the held-out labels have the right length and contain both
classes, no candidate evaluation raises, and the evaluated list pairs
every candidate in order with its `evaluate_model` metrics. -/
theorem evalAll_eq_some (te : List ℚ) (y : List Bool)
    (hlen : y.length = te.length) (ht : true ∈ y) (hf : false ∈ y) :
    ∀ (cands : List (String × ℚ)), evalAll te y cands = some (evalsOf te y cands)
  | [] => rfl
  | c :: cs => by
    have h1 : evalCand te y c = some ⟨c.1, c.2, metricsOf y (classify te c.2) c.2⟩ := by
      unfold evalCand evaluate_model
      rw [if_pos]
      · rfl
      · refine ⟨?_, Or.inl ht, Or.inl hf⟩
        simp [classify, hlen]
    show (match evalCand te y c, evalAll te y cs with
      | some e, some es => some (e :: es)
      | _, _ => none) = _
    rw [h1, evalAll_eq_some te y hlen ht hf cs]
    rfl

/-- Every candidate the search evaluates carries `evaluate_model` metrics,
whose detection rate is nonnegative. -/
theorem evalsOf_detection_nonneg (te : List ℚ) (y : List Bool)
    (cands : List (String × ℚ)) :
    ∀ c ∈ evalsOf te y cands, 0 ≤ c.m.detection_rate := by
  intro c hc
  obtain ⟨p, hp, rfl⟩ := List.mem_map.mp hc
  exact metricsOf_detection_nonneg _ _ _

set_option maxRecDepth 8000 in
/-- Master refinement: under well-formed held-out labels the whole search
equals "spec Phase-1 selection, else spec Phase-2 maximum-score selection
restricted to scores strictly above the `-1` floor". -/
theorem find_optimal_threshold_eq (tr te : List ℚ) (σ : ℚ) (y : List Bool) (target : ℚ)
    (hlen : y.length = te.length) (ht : true ∈ y) (hf : false ∈ y) :
    find_optimal_threshold tr te σ y target =
      match specPhase1Select target (evalsOf te y (strategies tr σ)) with
      | some b => some b
      | none => keepIf (fun c => decide ((-1 : ℚ) < score target c.m))
          (specPhase2Select target (evalsOf te y (fallbackCandidates tr))) := by
  unfold find_optimal_threshold
  rw [evalAll_eq_some te y hlen ht hf (strategies tr σ),
    evalAll_eq_some te y hlen ht hf (fallbackCandidates tr)]
  show (match phase1Fold target (evalsOf te y (strategies tr σ)) with
    | some b => some b
    | none =>
      match (phase2Fold target (evalsOf te y (fallbackCandidates tr))).2 with
      | some b => some b
      | none => none) = _
  rw [phase1Fold_eq_spec target _ (evalsOf_detection_nonneg te y _),
    phase2Fold_eq_spec target _]
  cases specPhase1Select target (evalsOf te y (strategies tr σ)) with
  | some b => rfl
  | none =>
    cases specPhase2Select target (evalsOf te y (fallbackCandidates tr)) with
    | none => rfl
    | some b =>
      show (match (if decide ((-1 : ℚ) < score target b.m) then some b else none : Option Cand) with
        | some b => some b
        | none => none) = (if decide ((-1 : ℚ) < score target b.m) then some b else none : Option Cand)
      by_cases hb : (-1 : ℚ) < score target b.m
      · simp [hb]
      · simp [hb]

/-- A nonempty qualifying set always contains a first maximum, so Phase 1
selects nothing exactly when no candidate qualifies. -/
theorem specPhase1Select_eq_none_iff (target : ℚ) (cs : List Cand) :
    specPhase1Select target cs = none ↔ ∀ c ∈ cs, qualifiesB target c.m = false := by
  show (cs.filter fun c => qualifiesB target c.m).find?
    (fun c => (cs.filter fun c => qualifiesB target c.m).all
      fun b => decide (b.m.detection_rate ≤ c.m.detection_rate)) = none ↔ _
  constructor
  · intro h c hc
    by_contra hq
    rw [Bool.not_eq_false] at hq
    have hcq : c ∈ cs.filter (fun c => qualifiesB target c.m) :=
      List.mem_filter.mpr ⟨hc, hq⟩
    have hne : cs.filter (fun c => qualifiesB target c.m) ≠ [] := by
      intro he
      rw [he] at hcq
      exact List.not_mem_nil _ hcq
    obtain ⟨x, hx, hxm⟩ := exists_le_max (fun c : Cand => c.m.detection_rate) _ hne
    rw [List.find?_eq_none] at h
    refine h x hx ?_
    simp only [List.all_eq_true, decide_eq_true_eq]
    exact hxm
  · intro h
    have he : cs.filter (fun c => qualifiesB target c.m) = [] := by
      rw [List.filter_eq_nil_iff]
      intro c hc
      simp [h c hc]
    rw [he]
    rfl

/-! ## Claim theorems -/

/-- C4: for every input matrix and window length `L > 0`: `N ≤ L` yields
zero windows (and, the embedding being a total function into lists, no
error); `N > L` yields exactly `N − L` windows, window `i` being
`rows[i : i+L]`, each of shape `(L, F)`. -/
theorem windower_count_shape (data : List (List ℚ)) (L F : ℕ)
    (hL : 0 < L) (hF : ∀ r ∈ data, r.length = F) :
    (data.length ≤ L → create_sequences data L = []) ∧
    (L < data.length →
      (create_sequences data L).length = data.length - L ∧
      (∀ i, i < data.length - L →
        (create_sequences data L)[i]? = some ((data.drop i).take L)) ∧
      (∀ w ∈ create_sequences data L, w.length = L ∧ ∀ r ∈ w, r.length = F)) := by
  refine ⟨fun h => by simp [create_sequences, h], fun h => ?_⟩
  have hn : ¬ data.length ≤ L := not_le.mpr h
  refine ⟨?_, ?_, ?_⟩
  · simp [create_sequences, hn]
  · intro i hi
    simp [create_sequences, hn, List.getElem?_map, List.getElem?_range hi]
  · intro w hw
    simp only [create_sequences, hn, if_false, List.mem_map, List.mem_range] at hw
    obtain ⟨i, hi, rfl⟩ := hw
    constructor
    · rw [List.length_take, List.length_drop]
      omega
    · intro r hr
      have hr2 : r ∈ data := List.mem_of_mem_drop (List.mem_of_mem_take hr)
      exact hF r hr2

/-- C5: when labels accompany windowing with length `L`, the label attached
to window `i` is the label at row index `i + L` (the row immediately after
the window, whose own rows are `i .. i+L−1`). -/
theorem window_label_alignment {γ : Type} (X : List (List ℚ)) (y : List γ) (L i : ℕ)
    (hL : L < X.length) (hi : i < X.length - L) :
    (pipelineSeq X y L).1[i]? = some ((X.drop i).take L) ∧
    (pipelineSeq X y L).2[i]? = y[i + L]? := by
  have hn : ¬ X.length ≤ L := not_le.mpr hL
  have hXs : (create_sequences X L).length = X.length - L := by
    simp [create_sequences, hn]
  constructor
  · show (create_sequences X L)[i]? = _
    simp [create_sequences, hn, List.getElem?_map, List.getElem?_range hi]
  · show (if (create_sequences X L).length ≠ 0 then alignSeqLabels y L else y)[i]? = _
    rw [if_pos (by omega)]
    show (y.drop L)[i]? = y[i + L]?
    rw [List.getElem?_drop]
    congr 1
    omega

/-- C6 (corrected claim, counterexample side): on the single-class input
`y_true = y_pred = [0]`, `evaluate_model` raises (`confusion_matrix` is
1×1 and the 4-way unpacking fails) instead of returning metrics — refuting
"evaluate never raises an exception on any input, including inputs where
only one class occurs". -/
theorem evaluate_model_single_class_counterexample :
    evaluate_model [false] [false] 0 = none := by decide

/-- C6 (amended): whenever the two equal-length label vectors jointly
contain both classes (so the confusion matrix is 2×2), `evaluate_model`
returns metrics with `accuracy = (tp+tn)/(tp+tn+fp+fn)` and every derived
rate whose denominator is zero equal to 0, raising nothing. -/
theorem evaluate_model_two_class_metrics (yt yp : List Bool) (t : ℚ)
    (hlen : yt.length = yp.length)
    (ht : true ∈ yt ∨ true ∈ yp) (hf : false ∈ yt ∨ false ∈ yp) :
    ∃ m, evaluate_model yt yp t = some m ∧
      m.tp = countTP yt yp ∧ m.fp = countFP yt yp ∧
      m.tn = countTN yt yp ∧ m.fneg = countFN yt yp ∧
      m.accuracy = ((m.tp : ℚ) + m.tn) / ((m.tp : ℚ) + m.tn + m.fp + m.fneg) ∧
      (m.tp + m.fp = 0 → m.precision = 0) ∧
      (m.tp + m.fneg = 0 → m.recallV = 0) ∧
      (m.fp + m.tn = 0 → m.false_positive_rate = 0) ∧
      (m.precision + m.recallV = 0 → m.f1_score = 0) ∧
      m.detection_rate = m.recallV := by
  refine ⟨metricsOf yt yp t, ?_, rfl, rfl, rfl, rfl, rfl, ?_, ?_, ?_, ?_, rfl⟩
  · unfold evaluate_model
    rw [if_pos ⟨hlen, ht, hf⟩]
  · intro h
    have h2 : countTP yt yp + countFP yt yp = 0 := h
    show (if 0 < countTP yt yp + countFP yt yp then _ else (0 : ℚ)) = 0
    rw [if_neg (by omega)]
  · intro h
    have h2 : countTP yt yp + countFN yt yp = 0 := h
    show (if 0 < countTP yt yp + countFN yt yp then _ else (0 : ℚ)) = 0
    rw [if_neg (by omega)]
  · intro h
    have h2 : countFP yt yp + countTN yt yp = 0 := h
    show (if 0 < countFP yt yp + countTN yt yp then _ else (0 : ℚ)) = 0
    rw [if_neg (by omega)]
  · intro h
    show (if 0 < (metricsOf yt yp t).precision + (metricsOf yt yp t).recallV
      then _ else (0 : ℚ)) = 0
    rw [if_neg (by rw [h]; exact lt_irrefl 0)]

/-- C8 (corrected claim, counterexample side): an unrecognized label string
is silently mapped to a missing value (`pandas.Series.map` sends absent
keys to NaN); no `UnknownLabelError` or any other failure is raised — the
encoding step has no error channel at all. -/
theorem unknown_label_counterexample :
    encodeLabels ["benign", "malicious", "ddos"] = [some 0, some 1, none] := by
  decide

/-- C8 (amended): the pipeline maps `"benign"` to 0 and `"malicious"` to 1,
and maps every other string to a missing value (NaN) silently. -/
theorem label_encoding_silent_nan (s : String) :
    (s = "benign" → encodeLabel s = some 0) ∧
    (s = "malicious" → encodeLabel s = some 1) ∧
    (s ≠ "benign" → s ≠ "malicious" → encodeLabel s = none) := by
  refine ⟨fun h => ?_, fun h => ?_, fun h1 h2 => ?_⟩
  · rw [h]
    rfl
  · rw [h]
    rfl
  · unfold encodeLabel
    rw [if_neg h1, if_neg h2]

/-- C9: classification is monotone in the threshold: for a fixed error
vector, raising the threshold never increases the anomaly count. -/
theorem classification_monotone_in_threshold (errors : List ℚ) (t1 t2 : ℚ)
    (h : t1 ≤ t2) :
    anomalyCount errors t2 ≤ anomalyCount errors t1 := by
  unfold anomalyCount classify
  induction errors with
  | nil => exact le_refl _
  | cons e es ih =>
    simp only [List.map_cons]
    by_cases h2 : t2 < e
    · have h1 : t1 < e := lt_of_le_of_lt h h2
      simp [h1, h2, List.count_cons]
      omega
    · by_cases h1 : t1 < e
      · simp [h1, h2, List.count_cons]
        omega
      · simp [h1, h2, List.count_cons]
        omega

/-- C3 (corrected claim, counterexample side): no fixed persisted
`(mean, std)` parameters can reproduce what `preprocess_for_detection`
computes, because it refits a `StandardScaler` on each uploaded file: the
identical raw row `[0,0,0,0]` is sent to `−1` (per feature) by the request
whose columns are `[0, 2]` and to `0` by the request whose columns are
`[0, 0]`.  (The supplied per-column standard deviations 1 and 0 are checked
to be correct by the `stdSpec` conjuncts.) -/
theorem scaler_refit_per_request_counterexample :
    stdSpec [0, 2] 1 ∧ stdSpec [0, 0] 0 ∧
    ¬ ∃ params : String → ℚ × ℚ,
      applyScalerParams params
          [("orig_pkts", [0, 2]), ("resp_pkts", [0, 2]),
           ("orig_bytes", [0, 2]), ("resp_bytes", [0, 2])]
        = detectionNormalize
          [("orig_pkts", [0, 2]), ("resp_pkts", [0, 2]),
           ("orig_bytes", [0, 2]), ("resp_bytes", [0, 2])] (fun _ => 1) ∧
      applyScalerParams params
          [("orig_pkts", [0, 0]), ("resp_pkts", [0, 0]),
           ("orig_bytes", [0, 0]), ("resp_bytes", [0, 0])]
        = detectionNormalize
          [("orig_pkts", [0, 0]), ("resp_pkts", [0, 0]),
           ("orig_bytes", [0, 0]), ("resp_bytes", [0, 0])] (fun _ => 0) := by
  refine ⟨⟨by norm_num, by norm_num [pvariance, mean]⟩,
    ⟨le_refl 0, by norm_num [pvariance, mean]⟩, ?_⟩
  rintro ⟨params, hA, hB⟩
  have eA := congrArg (fun l : Frame => ((l.headD ("", [])).2.headD 37)) hA
  norm_num [applyScalerParams, detectionNormalize, expectedFeatures, colOf,
    standardizeCol, mean, scaleOf, List.find?] at eA
  have eB := congrArg (fun l : Frame => ((l.headD ("", [])).2.headD 37)) hB
  norm_num [applyScalerParams, detectionNormalize, expectedFeatures, colOf,
    standardizeCol, mean, scaleOf, List.find?] at eB
  rcases eB with h0 | h0
  · rw [h0] at eA
    norm_num at eA
  · split at h0
    · norm_num at h0
    · rename_i hc
      exact hc h0

/-- C3 (amended): `preprocess_for_detection` normalizes every request with
parameters fitted on the request itself — its output is exactly
`applyScalerParams` with the request's own per-column mean and standard
deviation, so the normalization of a row depends on the rest of the file
rather than on any persisted scaler. -/
theorem inference_normalizes_with_request_stats (df : Frame) (std : String → ℚ)
    (h : ∀ f ∈ expectedFeatures, stdSpec (colOf df f) (std f)) :
    detectionNormalize df std
      = applyScalerParams (fun f => (mean (colOf df f), std f)) df := rfl

/-- C7 (corrected claim, counterexample side): on a table missing the
`resp_bytes` column, `clean_data` does not fail: it silently fits and
applies its scaler to exactly the three remaining required columns and
returns the normalized frame.  (Only the app-level
`preprocess_for_detection` check raises.) -/
theorem clean_data_proceeds_on_missing_column_counterexample :
    stdSpec [1, 2] (1/2) ∧
    missingFeatures (colNames
      [("orig_pkts", [1, 2]), ("resp_pkts", [1, 2]), ("orig_bytes", [1, 2])])
      = ["resp_bytes"] ∧
    cleanDataScalerCols (colNames
      [("orig_pkts", [1, 2]), ("resp_pkts", [1, 2]), ("orig_bytes", [1, 2])])
      expectedFeatures = ["orig_pkts", "resp_pkts", "orig_bytes"] ∧
    cleanDataNumeric
      [("orig_pkts", [1, 2]), ("resp_pkts", [1, 2]), ("orig_bytes", [1, 2])]
      expectedFeatures (fun _ => 1/2)
      = [("orig_pkts", standardizeCol [1, 2] (1/2)),
         ("resp_pkts", standardizeCol [1, 2] (1/2)),
         ("orig_bytes", standardizeCol [1, 2] (1/2))] := by
  refine ⟨⟨by norm_num, by norm_num [pvariance, mean]⟩, ?_, ?_, ?_⟩
  · simp [missingFeatures, expectedFeatures, colNames]
  · simp [cleanDataScalerCols, expectedFeatures, colNames]
  · simp [cleanDataNumeric, cleanDataScalerCols, expectedFeatures, colNames]

/-- C7 (amended): the app-level detection preprocessor fails with a
`ValueError` naming every absent required column and exactly those;
validation succeeds exactly when all four required columns are present.
(`clean_data` on the training path instead proceeds on the remaining
columns — see the counterexample.) -/
theorem detection_missing_features_exact (df : Frame) (std : String → ℚ) :
    (∀ f, f ∈ missingFeatures (colNames df)
      ↔ (f ∈ expectedFeatures ∧ ¬ f ∈ colNames df)) ∧
    (missingFeatures (colNames df) ≠ [] →
      preprocess_for_detection df std = Except.error
        ("Missing required features: " ++ toString (missingFeatures (colNames df)))) ∧
    (missingFeatures (colNames df) = [] ↔ ∀ f ∈ expectedFeatures, f ∈ colNames df) := by
  refine ⟨?_, ?_, ?_⟩
  · intro f
    simp [missingFeatures, List.mem_filter]
  · intro h
    unfold preprocess_for_detection
    rw [if_pos h]
  · rw [missingFeatures, List.filter_eq_nil_iff]
    constructor
    · intro h f hf
      have := h f hf
      simpa using this
    · intro h f hf
      simpa using h f hf

/-- Lengths after `take`/`filter`, for the C10 success-path contract. -/
theorem filter_range_length_le (p : ℕ → Bool) (n : ℕ) :
    ((List.range n).filter p).length ≤ n := by
  calc ((List.range n).filter p).length ≤ (List.range n).length :=
        List.length_filter_le _ _
    _ = n := List.length_range n

/-- C10 (implicit claim): the application-level detection entry point is
total — it always returns a result dictionary — and on every internal
failure path (model unavailable, preprocessing/validation error) the
result carries an error message together with `anomalies_count = 0`, empty
`details` and `total_samples = 0`; on success there is no error key, the
sample count is the window count, the anomaly count never exceeds it and
the detail list is capped at 100 entries. -/
theorem app_detect_anomalies_error_contract (modelLoaded : Bool)
    (model : List (List ℚ) → List (List ℚ)) (threshold : ℚ)
    (df : Frame) (std : String → ℚ) :
    ((app_detect_anomalies modelLoaded model threshold df std).error = none ∨
      ((app_detect_anomalies modelLoaded model threshold df std).anomalies_count = 0 ∧
       (app_detect_anomalies modelLoaded model threshold df std).details = [] ∧
       (app_detect_anomalies modelLoaded model threshold df std).total_samples = 0)) ∧
    (modelLoaded = false →
      (app_detect_anomalies modelLoaded model threshold df std)
        = ⟨some "Model not loaded. Please train the model first.", 0, [], 0⟩) ∧
    (∀ e, modelLoaded = true → preprocess_for_detection df std = Except.error e →
      (app_detect_anomalies modelLoaded model threshold df std) = ⟨some e, 0, [], 0⟩) ∧
    (∀ seqs, modelLoaded = true → preprocess_for_detection df std = Except.ok seqs →
      (app_detect_anomalies modelLoaded model threshold df std).error = none ∧
      (app_detect_anomalies modelLoaded model threshold df std).total_samples
        = seqs.length ∧
      (app_detect_anomalies modelLoaded model threshold df std).anomalies_count
        ≤ seqs.length ∧
      (app_detect_anomalies modelLoaded model threshold df std).details.length
        ≤ 100) := by
  cases modelLoaded with
  | false =>
    refine ⟨Or.inr ⟨rfl, rfl, rfl⟩, fun _ => rfl, ?_, ?_⟩
    · intro e h
      exact absurd h (by simp)
    · intro seqs h
      exact absurd h (by simp)
  | true =>
    cases hpre : preprocess_for_detection df std with
    | error e =>
      have hres : app_detect_anomalies true model threshold df std = ⟨some e, 0, [], 0⟩ := by
        unfold app_detect_anomalies
        rw [hpre]
        rfl
      refine ⟨Or.inr (by rw [hres]; exact ⟨rfl, rfl, rfl⟩), by simp, ?_, ?_⟩
      · intro e2 _ h2
        cases h2
        exact hres
      · intro seqs _ h2
        cases h2
    | ok seqs =>
      have hres : app_detect_anomalies true model threshold df std =
          { error := none
            anomalies_count := ((List.range (seqs.map
              (fun w => mseError w (model w))).length).filter
              (fun i => decide (threshold < (seqs.map
                (fun w => mseError w (model w))).getD i 0))).length
            details := ((((List.range (seqs.map
              (fun w => mseError w (model w))).length).filter
              (fun i => decide (threshold < (seqs.map
                (fun w => mseError w (model w))).getD i 0))).take 100).map
              (mkDetail (seqs.map (fun w => mseError w (model w))) threshold))
            total_samples := seqs.length } := by
        unfold app_detect_anomalies
        rw [hpre]
        rfl
      refine ⟨Or.inl (by rw [hres]), by simp, ?_, ?_⟩
      · intro e2 _ h2
        cases h2
      · intro seqs2 _ h2
        cases h2
        refine ⟨by rw [hres], by rw [hres], ?_, ?_⟩
        · rw [hres]
          show ((List.range _).filter _).length ≤ seqs.length
          calc ((List.range (seqs.map (fun w => mseError w (model w))).length).filter
              (fun i => decide (threshold < (seqs.map
                (fun w => mseError w (model w))).getD i 0))).length
              ≤ (seqs.map (fun w => mseError w (model w))).length :=
                filter_range_length_le _ _
            _ = seqs.length := List.length_map _ _
        · rw [hres]
          rw [List.length_map, List.length_take]
          exact min_le_left _ _

/-- C1: with well-formed held-out labels (both classes present so that the
rates are defined), Phase 1 evaluates exactly the nine candidate
thresholds mean+3σ, mean+2σ, mean+1σ, mean and the 95/90/85/80/75th
train-error percentiles, in that fixed order (first two conjuncts), and
whenever the spec's rule — the first-evaluated candidate with the strictly
highest detection rate among those with `detection_rate ≥ 0.85` and
`fpr ≤ target_fpr`, ties to the earlier candidate — selects a candidate,
`find_optimal_threshold` returns exactly that candidate. -/
theorem phase1_nine_candidates_first_highest_detection
    (tr te : List ℚ) (σ : ℚ) (y : List Bool) (target : ℚ)
    (htr : tr ≠ []) (hσ : stdSpec tr σ) (hlen : y.length = te.length)
    (ht : true ∈ y) (hf : false ∈ y) :
    evalAll te y (strategies tr σ) = some (evalsOf te y (strategies tr σ)) ∧
    (evalsOf te y (strategies tr σ)).map (fun c => (c.name, c.threshold))
      = strategies tr σ ∧
    ∀ c, specPhase1Select target (evalsOf te y (strategies tr σ)) = some c →
      find_optimal_threshold tr te σ y target = some c := by
  refine ⟨evalAll_eq_some te y hlen ht hf _, ?_, ?_⟩
  · have h1 : ((fun c : Cand => (c.name, c.threshold)) ∘
        fun c : String × ℚ => (⟨c.1, c.2, metricsOf y (classify te c.2) c.2⟩ : Cand))
        = fun c : String × ℚ => (c.1, c.2) := rfl
    have h2 : (fun c : String × ℚ => (c.1, c.2)) = id := funext fun c => Prod.mk.eta
    rw [evalsOf, List.map_map, h1, h2, List.map_id]
  · intro c hc
    rw [find_optimal_threshold_eq tr te σ y target hlen ht hf, hc]

/-- C2 (amended): the Phase-2 fallback runs exactly when no Phase-1
candidate qualifies (second conjunct characterises Phase-1 selecting
nothing as "no candidate qualifies"; the last conjunct shows a Phase-1
selection bypasses the fallback).  When it runs, it sweeps the integer
percentiles 50–99 of the train errors with
`score = detection_rate − penalty`, `penalty = fpr` if `fpr ≤ target_fpr`
else `2·fpr`, and returns the first-seen maximum-score percentile —
restricted to scores strictly above the initial `best_score = −1`: when
every score is ≤ −1 nothing is selected and no threshold is returned
(the claim's unconditional "returns the maximum-score threshold" fails
there; see the counterexample). -/
theorem phase2_fallback_first_max_score_above_floor
    (tr te : List ℚ) (σ : ℚ) (y : List Bool) (target : ℚ)
    (htr : tr ≠ []) (hσ : stdSpec tr σ) (hlen : y.length = te.length)
    (ht : true ∈ y) (hf : false ∈ y) :
    evalAll te y (fallbackCandidates tr) = some (evalsOf te y (fallbackCandidates tr)) ∧
    (specPhase1Select target (evalsOf te y (strategies tr σ)) = none
      ↔ ∀ c ∈ evalsOf te y (strategies tr σ), qualifiesB target c.m = false) ∧
    (specPhase1Select target (evalsOf te y (strategies tr σ)) = none →
      find_optimal_threshold tr te σ y target =
        keepIf (fun c => decide ((-1 : ℚ) < score target c.m))
          (specPhase2Select target (evalsOf te y (fallbackCandidates tr)))) ∧
    (∀ c, specPhase1Select target (evalsOf te y (strategies tr σ)) = some c →
      find_optimal_threshold tr te σ y target = some c) := by
  refine ⟨evalAll_eq_some te y hlen ht hf _,
    specPhase1Select_eq_none_iff target _, ?_, ?_⟩
  · intro h
    rw [find_optimal_threshold_eq tr te σ y target hlen ht hf, h]
  · intro c hc
    rw [find_optimal_threshold_eq tr te σ y target hlen ht hf, hc]

/-! ## Concrete evaluations for the corrected Phase-2 claim -/

/-- `np.percentile` on a sorted pair, in closed form. -/
theorem percentile_pair (a b : ℚ) (hab : a ≤ b) (p : ℕ) (hp : p < 100) :
    percentile [a, b] p = a + (p : ℚ) / 100 * (b - a) := by
  have hsort : ([a, b] : List ℚ).insertionSort (· ≤ ·) = [a, b] := by
    simp [List.insertionSort, List.orderedInsert, hab]
  simp only [percentile, hsort, List.length_cons, List.length_nil, List.getD]
  rw [Nat.div_eq_of_lt (by omega)]
  simp

theorem percentile_00 (q : ℕ) (hq : q < 100) : percentile [0, 0] q = 0 := by
  rw [percentile_pair 0 0 (le_refl 0) q hq]
  ring

theorem percentile_02 (q : ℕ) (hq : q < 100) :
    percentile [0, 2] q = (q : ℚ) / 50 := by
  rw [percentile_pair 0 2 (by norm_num) q hq]
  ring

/-- When the head already attains the maximal score, the spec's Phase-2
selection returns it. -/
theorem specPhase2Select_cons_max (target : ℚ) (c0 : Cand) (cs : List Cand)
    (h : ∀ c ∈ c0 :: cs, score target c.m ≤ score target c0.m) :
    specPhase2Select target (c0 :: cs) = some c0 := by
  unfold specPhase2Select
  apply List.find?_cons_of_pos
  simp only [List.all_eq_true, decide_eq_true_eq]
  exact h

/-- On constant train errors `[0, 0]` every fallback percentile threshold
is 0, and against `test_errors = [1, 1]` every candidate carries the same
metrics. -/
theorem evalsOf_fallback_00 :
    evalsOf [1, 1] [true, false] (fallbackCandidates [0, 0])
      = (List.range' 50 50).map (fun p =>
          ⟨toString p ++ "th percentile", 0, metricsOf [true, false] [true, true] 0⟩) := by
  unfold evalsOf fallbackCandidates
  rw [List.map_map]
  apply List.map_congr_left
  intro p hp
  have hq : p < 100 := by
    have := List.mem_range'_1.mp hp
    omega
  have hcl : classify [1, 1] (0 : ℚ) = [true, true] := by norm_num [classify]
  simp [Function.comp, percentile_00 p hq, hcl]

theorem strategies_00 : strategies [0, 0] 0 =
    [("mean + 3*std", 0), ("mean + 2*std", 0), ("mean + 1*std", 0), ("mean", 0),
     ("95th percentile", 0), ("90th percentile", 0), ("85th percentile", 0),
     ("80th percentile", 0), ("75th percentile", 0)] := by
  norm_num [strategies, mean, percentile_00 95 (by norm_num), percentile_00 90 (by norm_num),
    percentile_00 85 (by norm_num), percentile_00 80 (by norm_num),
    percentile_00 75 (by norm_num)]

/-- C2 (corrected claim, counterexample side): with `train_errors = [0,0]`,
`test_errors = [1,1]`, `y_test = [1,0]`, `target_fpr = 0.10` (and
`np.std([0,0]) = 0`), no Phase-1 candidate qualifies, so the fallback
runs; the spec's maximum-score selection is the 50th percentile with
threshold 0 (every percentile scores exactly −1), but the code returns no
threshold at all — each score fails the strict `score > best_score`
comparison against the initial `best_score = -1`, `best_threshold` stays
`None`, and the function raises formatting it.  This refutes "returns the
threshold attaining the maximum score". -/
theorem fallback_none_counterexample :
    stdSpec [0, 0] 0 ∧
    specPhase1Select (1/10) (evalsOf [1, 1] [true, false] (strategies [0, 0] 0)) = none ∧
    specPhase2Select (1/10) (evalsOf [1, 1] [true, false] (fallbackCandidates [0, 0]))
      = some ⟨"50th percentile", 0, metricsOf [true, false] [true, true] 0⟩ ∧
    score (1/10) (metricsOf [true, false] [true, true] 0) = -1 ∧
    find_optimal_threshold [0, 0] [1, 1] 0 [true, false] (1/10) = none := by
  have hcl : classify [1, 1] (0 : ℚ) = [true, true] := by norm_num [classify]
  have hq : qualifiesB (1/10) (metricsOf [true, false] [true, true] 0) = false := by
    norm_num [qualifiesB, metricsOf, countTP, countFP, countTN, countFN]
  have hscore : score (1/10) (metricsOf [true, false] [true, true] 0) = -1 := by
    norm_num [score, metricsOf, countTP, countFP, countTN, countFN]
  have h1 : specPhase1Select (1/10)
      (evalsOf [1, 1] [true, false] (strategies [0, 0] 0)) = none := by
    rw [specPhase1Select_eq_none_iff]
    intro c hc
    rw [strategies_00] at hc
    simp only [evalsOf, List.map_cons, List.map_nil, hcl, List.mem_cons,
      List.not_mem_nil, or_false] at hc
    rcases hc with rfl | rfl | rfl | rfl | rfl | rfl | rfl | rfl | rfl <;> exact hq
  have h2 : specPhase2Select (1/10)
      (evalsOf [1, 1] [true, false] (fallbackCandidates [0, 0]))
      = some ⟨"50th percentile", 0, metricsOf [true, false] [true, true] 0⟩ := by
    rw [evalsOf_fallback_00]
    have hcons : (List.range' 50 50).map (fun p =>
        (⟨toString p ++ "th percentile", 0, metricsOf [true, false] [true, true] 0⟩ : Cand))
        = (⟨"50th percentile", 0, metricsOf [true, false] [true, true] 0⟩ : Cand)
          :: (List.range' 51 49).map (fun p =>
          (⟨toString p ++ "th percentile", 0, metricsOf [true, false] [true, true] 0⟩ : Cand)) := rfl
    rw [hcons]
    apply specPhase2Select_cons_max
    intro c hc
    rcases List.mem_cons.mp hc with rfl | hc
    · exact le_refl _
    · obtain ⟨p, _, rfl⟩ := List.mem_map.mp hc
      exact le_refl _
  refine ⟨⟨le_refl 0, by norm_num [pvariance, mean]⟩, h1, h2, hscore, ?_⟩
  rw [find_optimal_threshold_eq _ _ _ _ _ rfl (by simp) (by simp), h1, h2]
  show keepIf (fun c : Cand => decide ((-1 : ℚ) < score (1/10) c.m))
    (some ⟨"50th percentile", 0, metricsOf [true, false] [true, true] 0⟩) = none
  unfold keepIf
  norm_num [hscore]

/-! ## Concrete evaluations for the witnesses -/

theorem strategies_02 : strategies [0, 2] 1 =
    [("mean + 3*std", 4), ("mean + 2*std", 3), ("mean + 1*std", 2), ("mean", 1),
     ("95th percentile", 19/10), ("90th percentile", 9/5), ("85th percentile", 17/10),
     ("80th percentile", 8/5), ("75th percentile", 3/2)] := by
  norm_num [strategies, mean, percentile_02 95 (by norm_num), percentile_02 90 (by norm_num),
    percentile_02 85 (by norm_num), percentile_02 80 (by norm_num),
    percentile_02 75 (by norm_num)]

/-- With `train_errors = [0,2]`, `test_errors = [5,0]`, `y_test = [1,0]`,
all nine Phase-1 candidates qualify with detection rate 1, so the spec
selection keeps the first evaluated one, `mean + 3*std` at threshold 4. -/
theorem spec1_witness_eval :
    specPhase1Select (1/10) (evalsOf [5, 0] [true, false] (strategies [0, 2] 1))
      = some ⟨"mean + 3*std", 4, metricsOf [true, false] [true, false] 4⟩ := by
  have hcl : ∀ t : ℚ, 0 < t → t < 5 → classify [5, 0] t = [true, false] := by
    intro t h0 h5
    simp [classify, h5, not_lt.mpr (le_of_lt h0)]
  have hq : ∀ t : ℚ, qualifiesB (1/10) (metricsOf [true, false] [true, false] t) = true := by
    intro t
    norm_num [qualifiesB, metricsOf, countTP, countFP, countTN, countFN]
  have hdet : ∀ t : ℚ, (metricsOf [true, false] [true, false] t).detection_rate = 1 := by
    intro t
    norm_num [metricsOf, countTP, countFN]
  rw [strategies_02]
  simp only [evalsOf, List.map_cons, List.map_nil,
    hcl 4 (by norm_num) (by norm_num), hcl 3 (by norm_num) (by norm_num),
    hcl 2 (by norm_num) (by norm_num), hcl 1 (by norm_num) (by norm_num),
    hcl (19/10) (by norm_num) (by norm_num), hcl (9/5) (by norm_num) (by norm_num),
    hcl (17/10) (by norm_num) (by norm_num), hcl (8/5) (by norm_num) (by norm_num),
    hcl (3/2) (by norm_num) (by norm_num)]
  unfold specPhase1Select
  simp only [List.filter_cons, List.filter_nil, hq, if_true]
  apply List.find?_cons_of_pos
  simp only [List.all_eq_true, decide_eq_true_eq, List.mem_cons, List.not_mem_nil, or_false]
  intro b hb
  rcases hb with rfl | rfl | rfl | rfl | rfl | rfl | rfl | rfl | rfl <;>
    simp [hdet]

/-- With `train_errors = [0,2]`, `test_errors = [3, 3, 0.1]`,
`y_test = [1,0,0]` and `target_fpr = 0`, no Phase-1 candidate qualifies:
large thresholds miss the anomaly and small ones flag a benign window,
breaching the zero FPR target. -/
theorem spec1_none_for_fallback_witness :
    specPhase1Select 0 (evalsOf [3, 3, 1/10] [true, false, false] (strategies [0, 2] 1))
      = none := by
  have hclA : ∀ t : ℚ, 3 ≤ t → classify [3, 3, 1/10] t = [false, false, false] := by
    intro t h3
    simp [classify, not_lt.mpr h3]
    linarith
  have hclB : ∀ t : ℚ, 1/10 ≤ t → t < 3 → classify [3, 3, 1/10] t = [true, true, false] := by
    intro t h1 h3
    simp [classify, h3]
    linarith
  have hqA : qualifiesB 0 (metricsOf [true, false, false] [false, false, false] 4) = false ∧
      qualifiesB 0 (metricsOf [true, false, false] [false, false, false] 3) = false := by
    constructor <;> norm_num [qualifiesB, metricsOf, countTP, countFP, countTN, countFN]
  have hqB : ∀ t : ℚ, qualifiesB 0 (metricsOf [true, false, false] [true, true, false] t)
      = false := by
    intro t
    norm_num [qualifiesB, metricsOf, countTP, countFP, countTN, countFN]
  rw [specPhase1Select_eq_none_iff]
  intro c hc
  rw [strategies_02] at hc
  simp only [evalsOf, List.map_cons, List.map_nil,
    hclA 4 (by norm_num), hclA 3 (by norm_num),
    hclB 2 (by norm_num) (by norm_num), hclB 1 (by norm_num) (by norm_num),
    hclB (19/10) (by norm_num) (by norm_num), hclB (9/5) (by norm_num) (by norm_num),
    hclB (17/10) (by norm_num) (by norm_num), hclB (8/5) (by norm_num) (by norm_num),
    hclB (3/2) (by norm_num) (by norm_num), List.mem_cons, List.not_mem_nil, or_false] at hc
  rcases hc with rfl | rfl | rfl | rfl | rfl | rfl | rfl | rfl | rfl
  · exact hqA.1
  · exact hqA.2
  all_goals exact hqB _

theorem evalsOf_fallback_02 :
    evalsOf [3, 3, 1/10] [true, false, false] (fallbackCandidates [0, 2])
      = (List.range' 50 50).map (fun p : ℕ =>
          ⟨toString p ++ "th percentile", (p : ℚ) / 50,
           metricsOf [true, false, false] [true, true, false] ((p : ℚ) / 50)⟩) := by
  unfold evalsOf fallbackCandidates
  rw [List.map_map]
  apply List.map_congr_left
  intro p hp
  have hb := List.mem_range'_1.mp hp
  have h100 : p < 100 := by omega
  have hcl : classify [3, 3, 1/10] ((p : ℚ) / 50) = [true, true, false] := by
    have h50 : (50 : ℚ) ≤ (p : ℚ) := by exact_mod_cast hb.1
    have hlt : (p : ℚ) < 100 := by exact_mod_cast h100
    have d1 : decide ((p : ℚ) / 50 < 3) = true := decide_eq_true (by linarith)
    have d3 : decide ((p : ℚ) / 50 < 1/10) = false := decide_eq_false (by linarith)
    unfold classify
    simp only [List.map_cons, List.map_nil]
    rw [d1, d3]
  simp only [Function.comp]
  rw [percentile_02 p h100, hcl]

/-- At the fallback-witness input all fifty percentile candidates score 0,
so the first one seen — the 50th percentile, threshold 1 — wins and the
code returns it. -/
theorem fallback_witness_eval :
    find_optimal_threshold [0, 2] [3, 3, 1/10] 1 [true, false, false] 0
      = some ⟨"50th percentile", 1, metricsOf [true, false, false] [true, true, false] 1⟩ := by
  have hscore : ∀ t : ℚ, score 0 (metricsOf [true, false, false] [true, true, false] t)
      = 0 := by
    intro t
    norm_num [score, metricsOf, countTP, countFP, countTN, countFN]
  rw [find_optimal_threshold_eq _ _ _ _ _ rfl (by simp) (by simp),
    spec1_none_for_fallback_witness]
  rw [evalsOf_fallback_02]
  have hcons : (List.range' 50 50).map (fun p : ℕ =>
      (⟨toString p ++ "th percentile", (p : ℚ) / 50,
        metricsOf [true, false, false] [true, true, false] ((p : ℚ) / 50)⟩ : Cand))
      = (⟨"50th percentile", ((50 : ℕ) : ℚ) / 50,
          metricsOf [true, false, false] [true, true, false] (((50 : ℕ) : ℚ) / 50)⟩ : Cand)
        :: (List.range' 51 49).map (fun p : ℕ =>
        (⟨toString p ++ "th percentile", (p : ℚ) / 50,
          metricsOf [true, false, false] [true, true, false] ((p : ℚ) / 50)⟩ : Cand)) := rfl
  rw [hcons]
  have hsel : specPhase2Select 0
      ((⟨"50th percentile", ((50 : ℕ) : ℚ) / 50,
          metricsOf [true, false, false] [true, true, false] (((50 : ℕ) : ℚ) / 50)⟩ : Cand)
        :: (List.range' 51 49).map (fun p : ℕ =>
        (⟨toString p ++ "th percentile", (p : ℚ) / 50,
          metricsOf [true, false, false] [true, true, false] ((p : ℚ) / 50)⟩ : Cand)))
      = some ⟨"50th percentile", ((50 : ℕ) : ℚ) / 50,
          metricsOf [true, false, false] [true, true, false] (((50 : ℕ) : ℚ) / 50)⟩ := by
    apply specPhase2Select_cons_max
    intro c hc
    rcases List.mem_cons.mp hc with rfl | hc
    · exact le_refl _
    · obtain ⟨p, _, rfl⟩ := List.mem_map.mp hc
      rw [hscore, hscore]
  rw [hsel]
  unfold keepIf
  norm_num [hscore, Cand.mk.injEq]

/-! ## Witnesses -/

/-- Witness for C1 at `train_errors = [0,2]` (std 1), `test_errors = [5,0]`,
`y_test = [1,0]`, `target_fpr = 0.10`: every hypothesis holds and the
search returns the first-evaluated candidate `mean + 3*std` (threshold 4),
which has the strictly... highest detection rate among qualifiers. -/
theorem phase1_nine_candidates_first_highest_detection_witness :
    (([0, 2] : List ℚ) ≠ [] ∧ stdSpec [0, 2] 1 ∧
      ([true, false] : List Bool).length = ([5, 0] : List ℚ).length ∧
      true ∈ [true, false] ∧ false ∈ [true, false]) ∧
    specPhase1Select (1/10) (evalsOf [5, 0] [true, false] (strategies [0, 2] 1))
      = some ⟨"mean + 3*std", 4, metricsOf [true, false] [true, false] 4⟩ ∧
    find_optimal_threshold [0, 2] [5, 0] 1 [true, false] (1/10)
      = some ⟨"mean + 3*std", 4, metricsOf [true, false] [true, false] 4⟩ := by
  have h := phase1_nine_candidates_first_highest_detection [0, 2] [5, 0] 1 [true, false]
    (1/10) (by simp) (by constructor <;> norm_num [pvariance, mean]) rfl
    (by simp) (by simp)
  exact ⟨⟨by simp, by constructor <;> norm_num [pvariance, mean], rfl, by simp, by simp⟩,
    spec1_witness_eval, h.2.2 _ spec1_witness_eval⟩

/-- Witness for the amended C2 at `train_errors = [0,2]` (std 1),
`test_errors = [3, 3, 0.1]`, `y_test = [1,0,0]`, `target_fpr = 0`: Phase 1
selects nothing, the fallback runs and — since every percentile scores
0 > −1 — returns the first-seen maximum, the 50th percentile at
threshold 1. -/
theorem phase2_fallback_first_max_score_above_floor_witness :
    (([0, 2] : List ℚ) ≠ [] ∧ stdSpec [0, 2] 1 ∧
      ([true, false, false] : List Bool).length = ([3, 3, 1/10] : List ℚ).length ∧
      true ∈ [true, false, false] ∧ false ∈ [true, false, false]) ∧
    specPhase1Select 0 (evalsOf [3, 3, 1/10] [true, false, false] (strategies [0, 2] 1))
      = none ∧
    find_optimal_threshold [0, 2] [3, 3, 1/10] 1 [true, false, false] 0
      = keepIf (fun c => decide ((-1 : ℚ) < score 0 c.m))
          (specPhase2Select 0 (evalsOf [3, 3, 1/10] [true, false, false]
            (fallbackCandidates [0, 2]))) ∧
    find_optimal_threshold [0, 2] [3, 3, 1/10] 1 [true, false, false] 0
      = some ⟨"50th percentile", 1, metricsOf [true, false, false] [true, true, false] 1⟩ := by
  have h := phase2_fallback_first_max_score_above_floor [0, 2] [3, 3, 1/10] 1
    [true, false, false] 0 (by simp) (by constructor <;> norm_num [pvariance, mean]) rfl
    (by simp) (by simp)
  exact ⟨⟨by simp, by constructor <;> norm_num [pvariance, mean], rfl, by simp, by simp⟩,
    spec1_none_for_fallback_witness, h.2.2.1 spec1_none_for_fallback_witness,
    fallback_witness_eval⟩

/-- Witness for the amended C3 on a concrete request whose columns are all
`[0, 2]` (per-column std 1). -/
theorem inference_normalizes_with_request_stats_witness :
    (∀ f ∈ expectedFeatures, stdSpec (colOf
        [("orig_pkts", [0, 2]), ("resp_pkts", [0, 2]),
         ("orig_bytes", [0, 2]), ("resp_bytes", [(0 : ℚ), 2])] f) 1) ∧
    detectionNormalize
        [("orig_pkts", [0, 2]), ("resp_pkts", [0, 2]),
         ("orig_bytes", [0, 2]), ("resp_bytes", [(0 : ℚ), 2])] (fun _ => 1)
      = applyScalerParams (fun f => (mean (colOf
          [("orig_pkts", [0, 2]), ("resp_pkts", [0, 2]),
           ("orig_bytes", [0, 2]), ("resp_bytes", [(0 : ℚ), 2])] f), 1))
        [("orig_pkts", [0, 2]), ("resp_pkts", [0, 2]),
         ("orig_bytes", [0, 2]), ("resp_bytes", [(0 : ℚ), 2])] := by
  have hyp : ∀ f ∈ expectedFeatures, stdSpec (colOf
      [("orig_pkts", [0, 2]), ("resp_pkts", [0, 2]),
       ("orig_bytes", [0, 2]), ("resp_bytes", [(0 : ℚ), 2])] f) 1 := by
    intro f hf
    fin_cases hf <;>
      exact ⟨by norm_num, by show (1 : ℚ)^2 = pvariance [0, 2]; norm_num [pvariance, mean]⟩
  exact ⟨hyp, inference_normalizes_with_request_stats _ _ hyp⟩

/-- Witness for C4 on a 3×2 matrix with window length 2: one window of the
claimed shape. -/
theorem windower_count_shape_witness :
    ((0 : ℕ) < 2 ∧ (∀ r ∈ [[1, 2], [3, 4], [(5 : ℚ), 6]], r.length = 2)) ∧
    (create_sequences [[1, 2], [3, 4], [(5 : ℚ), 6]] 2).length = 3 - 2 ∧
    create_sequences [[1, 2], [3, 4], [(5 : ℚ), 6]] 2 = [[[1, 2], [3, 4]]] := by
  refine ⟨⟨by norm_num, by decide⟩, ?_, ?_⟩
  · exact ((windower_count_shape [[1, 2], [3, 4], [(5 : ℚ), 6]] 2 2 (by norm_num)
      (by decide)).2 (by norm_num)).1
  · decide

/-- Witness for C5: three rows, window length 1; window 0's label is the
row-1 label (20), not the row-0 label inside the window. -/
theorem window_label_alignment_witness :
    ((1 : ℕ) < 3 ∧ (0 : ℕ) < 3 - 1) ∧
    (pipelineSeq [[1], [2], [(3 : ℚ)]] [10, 20, 30] 1).2[(0 : ℕ)]?
      = ([10, 20, 30] : List ℕ)[0 + 1]? ∧
    (pipelineSeq [[1], [2], [(3 : ℚ)]] [10, 20, 30] 1).2[(0 : ℕ)]? = some 20 := by
  have h := window_label_alignment [[1], [2], [(3 : ℚ)]] ([10, 20, 30] : List ℕ) 1 0
    (by norm_num) (by norm_num)
  exact ⟨⟨by norm_num, by norm_num⟩, h.2, by rw [h.2]; rfl⟩

/-- Witness for the amended C6: both classes occur jointly, all four
predictions are negative, and the zero-denominator precision is 0. -/
theorem evaluate_model_two_class_metrics_witness :
    (([true, false] : List Bool).length = ([false, false] : List Bool).length ∧
      (true ∈ [true, false] ∨ true ∈ [false, false]) ∧
      (false ∈ [true, false] ∨ false ∈ [false, false])) ∧
    (∃ m, evaluate_model [true, false] [false, false] 0 = some m ∧ m.precision = 0) := by
  refine ⟨⟨rfl, Or.inl (by simp), Or.inl (by simp)⟩, ?_⟩
  obtain ⟨m, hA, hB, hC, _, _, _, hG, _, _, _, _⟩ :=
    evaluate_model_two_class_metrics [true, false] [false, false] 0 rfl
      (Or.inl (by simp)) (Or.inl (by simp))
  refine ⟨m, hA, hG ?_⟩
  rw [hB, hC]
  decide

/-- Witness for the amended C7: a frame missing exactly `resp_bytes` fails
with the error naming it. -/
theorem detection_missing_features_exact_witness :
    missingFeatures (colNames
      [("orig_pkts", [(1 : ℚ)]), ("resp_pkts", [1]), ("orig_bytes", [1])]) ≠ [] ∧
    preprocess_for_detection
      [("orig_pkts", [(1 : ℚ)]), ("resp_pkts", [1]), ("orig_bytes", [1])] (fun _ => 1)
      = Except.error ("Missing required features: " ++ toString (missingFeatures (colNames
        [("orig_pkts", [(1 : ℚ)]), ("resp_pkts", [1]), ("orig_bytes", [1])]))) := by
  refine ⟨by decide, ?_⟩
  exact (detection_missing_features_exact _ _).2.1 (by decide)

/-- Witness for the amended C8 at the unknown label `"ddos"`. -/
theorem label_encoding_silent_nan_witness :
    ("ddos" ≠ "benign" ∧ "ddos" ≠ "malicious") ∧ encodeLabel "ddos" = none :=
  ⟨⟨by decide, by decide⟩,
    (label_encoding_silent_nan "ddos").2.2 (by decide) (by decide)⟩

/-- Witness for C9: thresholds 1/2 ≤ 3/2 on errors `[0, 1, 2]` give counts
1 ≤ 2. -/
theorem classification_monotone_in_threshold_witness :
    ((1 : ℚ)/2 ≤ 3/2) ∧ anomalyCount [0, 1, 2] (3/2) ≤ anomalyCount [0, 1, 2] (1/2) ∧
    anomalyCount [0, 1, 2] (3/2) = 1 ∧ anomalyCount [0, 1, 2] (1/2) = 2 := by
  refine ⟨by norm_num, classification_monotone_in_threshold [0, 1, 2] (1/2) (3/2)
    (by norm_num), ?_, ?_⟩ <;> norm_num [anomalyCount, classify, List.count_cons]

/-- Witness for C10: with no model loaded, the entry point returns the
zeroed error dictionary. -/
theorem app_detect_anomalies_error_contract_witness :
    (false = false) ∧
    app_detect_anomalies false (fun w => w) 0 [] (fun _ => 0)
      = ⟨some "Model not loaded. Please train the model first.", 0, [], 0⟩ :=
  ⟨rfl, (app_detect_anomalies_error_contract false (fun w => w) 0 [] (fun _ => 0)).2.1 rfl⟩

end IoTGuard
